import Mathlib

/-!
Shallow embedding of `src/PdfExtractor/PDFEXTRCT.py` (Document Extractor App).

The Python code is translated into executable Lean definitions:

* `parse_page_range` embeds the function of the same name (lines 114-139).
  Python exceptions that escape the function are modelled by `Option`:
  `none` means the call raises (the tuple unpacking `start, end =
  part.split('-')` on line 123 sits outside the `try` block, so a token
  with two or more dashes raises an uncaught `ValueError`).
* `pySplit`, `pyStripL`, `pyInt?` embed Python's `str.split` (single-char
  separator), `str.strip`, and `int(str)` respectively, restricted to
  ASCII whitespace and ASCII digits (the only characters the program's
  range syntax deals in).
-/

/-- Python `str.strip` / `int` whitespace: the six ASCII whitespace
characters (space, tab, newline, carriage return, vertical tab, form feed). -/
def pyIsSpace (c : Char) : Bool :=
  c = ' ' || c = '\t' || c = '\n' || c = '\r' || c = Char.ofNat 11 || c = Char.ofNat 12

/-- Python `str.strip()` on a character list: drop leading and trailing
whitespace. -/
def pyStripL (l : List Char) : List Char :=
  ((l.dropWhile pyIsSpace).reverse.dropWhile pyIsSpace).reverse

/-- Python `str.split(sep)` for a one-character separator: split at every
occurrence of `sep`, keeping empty pieces (`"".split(',') == ['']`,
`"a,,b".split(',') == ['a','','b']`). -/
def pySplit (sep : Char) : List Char → List (List Char)
  | [] => [[]]
  | c :: cs =>
    if c = sep then [] :: pySplit sep cs
    else
      match pySplit sep cs with
      | [] => [[c]]
      | t :: ts => (c :: t) :: ts

/-- Decimal value of a digit list (most significant first). -/
def digitsVal (l : List Char) : Int :=
  l.foldl (fun a c => a * 10 + ((c.toNat : Int) - ('0'.toNat : Int))) 0

/-- Python `int` literal body after sign removal: nonempty, only digits and
underscores, underscores single and strictly between digits. -/
def validIntBody (l : List Char) : Bool :=
  !l.isEmpty && l.all (fun c => c.isDigit || c = '_') &&
    l.head? != some '_' && l.getLast? != some '_' &&
    !(l.zip l.tail).any (fun p => p.1 = '_' && p.2 = '_')

/-- Value of a valid `int` literal body, or `none` on `ValueError`. -/
def pyIntCore (l : List Char) : Option Int :=
  if validIntBody l then some (digitsVal (l.filter Char.isDigit)) else none

/-- Python `int(s)` on a character list: strip whitespace, optional sign,
then a digit body; `none` models a raised `ValueError`. -/
def pyInt? (l : List Char) : Option Int :=
  match pyStripL l with
  | '-' :: rest => (pyIntCore rest).map (fun v => -v)
  | '+' :: rest => pyIntCore rest
  | rest => pyIntCore rest

/-- Insert an integer into a strictly-ascending list, keeping it
strictly ascending (no duplicate is created).  This is the set-`add`
operation on the sorted-list representation of Python's `set`. -/
def insertSorted (x : Int) : List Int → List Int
  | [] => [x]
  | y :: ys =>
    if x < y then x :: y :: ys
    else if x = y then y :: ys
    else y :: insertSorted x ys

/-- `set.update(xs)`: insert every element of `xs`. -/
def insertAll (acc : List Int) (xs : List Int) : List Int :=
  xs.foldl (fun a x => insertSorted x a) acc

/-- Python `range(s, e + 1)` as a list: `[s, s+1, ..., e]` (empty when
`e < s`). -/
def intRange (s e : Int) : List Int :=
  (List.range (e + 1 - s).toNat).map (fun (i : Nat) => s + (i : Int))

/-- The span branch of the token loop (lines 122-131), applied to the
result of `part.split('-')`.  The tuple unpacking `start, end = ...` on
line 123 sits before the `try`, so any split that is not a two-element
list raises an uncaught `ValueError` (`none`); a failing `int()` is
caught and the token is skipped; a reversed or out-of-bounds span is
skipped; otherwise `pages.update(range(start, end + 1))`. -/
def parseSpan (total_pages : Int) (acc : List Int) (parts : List (List Char)) :
    Option (List Int) :=
  match parts with
  | [a, b] =>
    match pyInt? a, pyInt? b with
    | some s, some e =>
      if s > e ∨ s < 1 ∨ e > total_pages then some acc
      else some (insertAll acc (intRange s e))
    | _, _ => some acc
  | _ => none

/-- The single-page branch of the token loop (lines 132-138): keep the
page only when it parses and `1 <= page <= total_pages`. -/
def parseSingle (total_pages : Int) (acc : List Int) (p : List Char) : List Int :=
  match pyInt? p with
  | some pg => if 1 ≤ pg ∧ pg ≤ total_pages then insertSorted pg acc else acc
  | _ => acc

/-- One iteration of the `for part in parts` loop of `parse_page_range`
(lines 118-138).  `acc` is the `pages` set so far, represented by its
strictly-ascending list of elements; the result is `none` when the
iteration raises an uncaught exception, otherwise `some` of the updated
set.  `int(start.strip())` is modelled by `pyInt?`, which strips
internally exactly as Python's `int` does. -/
def parsePart (total_pages : Int) (acc : List Int) (tok : List Char) : Option (List Int) :=
  if pyStripL tok = [] then some acc
  else if '-' ∈ pyStripL tok then parseSpan total_pages acc (pySplit '-' (pyStripL tok))
  else some (parseSingle total_pages acc (pyStripL tok))

/-- `parse_page_range(range_text, total_pages)` (lines 114-139): split on
commas, process each token, and return `sorted(pages)`.  Since the
`pages` set is represented throughout by its strictly-ascending element
list, the final `sorted(pages)` is the accumulated list itself.  `none`
models an exception escaping the function. -/
def parse_page_range (range_text : String) (total_pages : Int) : Option (List Int) :=
  (pySplit ',' range_text.data).foldlM (parsePart total_pages) ([] : List Int)

/-!
Export pipeline (lines 437-556).  A rasterized page is abstracted by its
pixel dimensions (`Img`); a page whose `get_pixmap`/`frombytes` raises is
modelled as `none`, and an out-of-range row index (which would raise an
`IndexError` inside the per-page `try`) behaves the same way.  The loaded
document seen by the export functions is `Option (List (Option Img))`:
`none` when no document is loaded, otherwise the per-page rasterization
outcomes.  `selectedRows` is the list of row indices of
`self.page_list.selectedItems()`, in the order the widget reports them —
the code itself applies no reordering to it.  `os.path.join` is modelled
as concatenation with `"/"`.
-/

/-- A rasterized page image; only the dimensions are relevant to the
compositing logic. -/
structure Img where
  width : Nat
  height : Nat
deriving DecidableEq, Repr

/-- `self.pdf_doc[page_num]` followed by rasterization: `none` when the
index is out of range (an `IndexError` inside the per-page `try`) or the
page fails to rasterize. -/
def pageAt (pages : List (Option Img)) (r : Nat) : Option Img :=
  (pages.get? r).join

/-- The `for page_num in page_nums` rasterization loop shared by both
image exports: each row whose page rasterizes successfully contributes
its image, failures are skipped (per-page `try`/`except`). -/
def rasterizeRows (pages : List (Option Img)) (rows : List Nat) : List Img :=
  rows.filterMap (fun r => pageAt pages r)

/-- `max(img.width for img in images)` (the caller guards `images`
nonempty, on which this fold agrees with Python's `max`). -/
def maxWidth (images : List Img) : Nat :=
  (images.map Img.width).foldl Nat.max 0

/-- `sum(img.height for img in images)`. -/
def totalHeight (images : List Img) : Nat :=
  (images.map Img.height).foldl (· + ·) 0

/-- The paste loop of `extract_pages` (lines 478-481): `y_offset = 0`;
paste each image at `(0, y_offset)`; `y_offset += img.height`.  Returns
the pastes (image, y-offset) in order together with the final offset. -/
def pasteFold (images : List Img) : List (Img × Nat) × Nat :=
  images.foldl (fun acc img => (acc.1 ++ [(img, acc.2)], acc.2 + img.height)) ([], 0)

/-- Outcome of `extract_pages` (merged single image). -/
inductive MergedResult
  | noDocument
  | noSelection
  | nothingExtracted
  | merged (path : String) (width height : Nat) (pastes : List (Img × Nat))
deriving DecidableEq, Repr

/-- `extract_pages` (lines 437-488): merged-image export. -/
def extract_pages (pdf_doc : Option (List (Option Img))) (selectedRows : List Nat)
    (output_folder : String) : MergedResult :=
  match pdf_doc with
  | none => .noDocument
  | some pages =>
    match selectedRows with
    | [] => .noSelection
    | _ =>
      let images := rasterizeRows pages selectedRows
      if images = [] then .nothingExtracted
      else
        .merged (output_folder ++ "/merged_pages.png") (maxWidth images) (totalHeight images)
          (pasteFold images).1

/-- Outcome of `extract_separate_pages`. -/
inductive SeparateResult
  | noDocument
  | noSelection
  | nothingExtracted
  | saved (files : List String) (success_count : Nat)
deriving DecidableEq, Repr

/-- `f"page_{page_num + 1}.png"` joined to the output folder. -/
def pageFileName (output_folder : String) (row : Nat) : String :=
  output_folder ++ "/page_" ++ toString (row + 1) ++ ".png"

/-- `extract_separate_pages` (lines 490-529): one PNG per page; a failed
page is skipped (not counted), and only a zero success count is an
error. -/
def extract_separate_pages (pdf_doc : Option (List (Option Img))) (selectedRows : List Nat)
    (output_folder : String) : SeparateResult :=
  match pdf_doc with
  | none => .noDocument
  | some pages =>
    match selectedRows with
    | [] => .noSelection
    | _ =>
      let files := selectedRows.filterMap
        (fun r => (pageAt pages r).map (fun _ => pageFileName output_folder r))
      if files.length > 0 then .saved files files.length else .nothingExtracted

/-- Outcome of `extract_as_pdf`; `pageOrder` is the sequence of source
page offsets of the new document, in the order they were inserted. -/
inductive PdfResult
  | noDocument
  | noSelection
  | savedPdf (path : String) (pageOrder : List Nat)
deriving DecidableEq, Repr

/-- `extract_as_pdf` (lines 531-556): `new_pdf = fitz.open()` starts
empty; each `insert_pdf(..., from_page=r, to_page=r)` appends source page
`r`; the document only carries its page count here. -/
def extract_as_pdf (pdf_doc : Option Nat) (selectedRows : List Nat) (path : String) : PdfResult :=
  match pdf_doc with
  | none => .noDocument
  | some _ =>
    match selectedRows with
    | [] => .noSelection
    | _ => .savedPdf path (selectedRows.foldl (fun acc r => acc ++ [r]) [])

/-!
Selection (lines 403-429) and application state (lines 271-429).
`thumb_count` is `self.page_list.count()`: the widget holds one item per
page that rendered successfully in `load_pages`, so `thumb_count ≤`
the document's page count.  The widget's selection is the set of selected
items, recorded here as the ascending list of their row offsets.
-/

/-- Outcome of `select_pages`; `selected offsets` carries the new
selection (0-based rows, in the order `setSelected(True)` is called). -/
inductive SelectResult
  | noDocument
  | emptyInput
  | noValidPages
  | invalidRange
  | selected (offsets : List Int)
deriving DecidableEq, Repr

/-- `select_pages` (lines 403-429): strip the input, parse it against
`len(self.pdf_doc)`, error out on an empty parse (leaving the selection
alone), otherwise clear the selection and select row `page_num - 1` for
each parsed page with `0 <= page_num - 1 < count()`.  A `ValueError`
escaping `parse_page_range` is caught by the surrounding `try` and
reported (`invalidRange`). -/
def select_pages (pdf_doc : Option Nat) (range_text : String) (thumb_count : Nat) : SelectResult :=
  match pdf_doc with
  | none => .noDocument
  | some total_pages =>
    let t := pyStripL range_text.data
    if t = [] then .emptyInput
    else
      match parse_page_range (String.mk t) (total_pages : Int) with
      | none => .invalidRange
      | some [] => .noValidPages
      | some pages =>
        .selected (pages.filterMap (fun p =>
          if 0 ≤ p - 1 ∧ p - 1 < (thumb_count : Int) then some (p - 1) else none))

/-- Application state: the loaded document (as its page count), the
number of thumbnail items, and the selected row offsets. -/
structure AppState where
  pdf_doc : Option Nat
  thumb_count : Nat
  selection : List Int
deriving DecidableEq, Repr

/-- Effect of clicking "Select Pages": only a successful (non-empty)
parse replaces the selection; every error path leaves the state alone. -/
def applySelect (s : AppState) (range_text : String) : AppState :=
  match select_pages s.pdf_doc range_text s.thumb_count with
  | .selected offsets => { s with selection := offsets }
  | _ => s

/-- User-visible events that change the application state. -/
inductive Event where
  | loadOk (n k : Nat)
  | loadFail
  | doSelect (text : String)

/-- State transitions of the application.
`loadOk n k`: `load_pdf` succeeds on an `n`-page file and
`load_pages` clears the widget (discarding the old items and with them
the whole selection) and adds one item per page that renders without
error (`k ≤ n` of them).
`loadFail`: `fitz.open` raises, so `pdf_doc = None` and
`current_file = None`; the widget, and hence the stale selection, is
untouched (lines 382-385).
`doSelect`: the "Select Pages" button. -/
inductive Step : AppState → Event → AppState → Prop
  | loadOk (s : AppState) (n k : Nat) (hk : k ≤ n) :
      Step s (.loadOk n k) { pdf_doc := some n, thumb_count := k, selection := [] }
  | loadFail (s : AppState) :
      Step s .loadFail { s with pdf_doc := none }
  | doSelect (s : AppState) (text : String) :
      Step s (.doSelect text) (applySelect s text)

/-- States reachable from the initial state (no document, empty widget,
empty selection). -/
inductive Reachable : AppState → Prop
  | init : Reachable { pdf_doc := none, thumb_count := 0, selection := [] }
  | step {s t : AppState} {e : Event} : Reachable s → Step s e t → Reachable t

/-! ### Properties of the sorted-set operations -/

lemma insertSorted_mem {x y : Int} {l : List Int} :
    x ∈ insertSorted y l ↔ x = y ∨ x ∈ l := by
  induction l with
  | nil => simp [insertSorted]
  | cons z zs ih =>
    unfold insertSorted
    split_ifs with h1 h2
    · simp only [List.mem_cons]
    · subst h2
      simp only [List.mem_cons]
      tauto
    · simp only [List.mem_cons, ih]
      tauto

lemma insertSorted_sorted {y : Int} {l : List Int} (h : l.Sorted (· < ·)) :
    (insertSorted y l).Sorted (· < ·) := by
  induction l with
  | nil => simp [insertSorted]
  | cons z zs ih =>
    rw [List.sorted_cons] at h
    obtain ⟨hz, hzs⟩ := h
    unfold insertSorted
    split_ifs with h1 h2
    · refine List.sorted_cons.2 ⟨?_, List.sorted_cons.2 ⟨hz, hzs⟩⟩
      intro b hb
      rcases List.mem_cons.1 hb with rfl | hb
      · exact h1
      · exact lt_trans h1 (hz b hb)
    · exact List.sorted_cons.2 ⟨hz, hzs⟩
    · refine List.sorted_cons.2 ⟨?_, ih hzs⟩
      intro b hb
      rcases insertSorted_mem.1 hb with rfl | hb
      · omega
      · exact hz b hb

lemma insertAll_mem {x : Int} {xs : List Int} : ∀ {acc : List Int},
    x ∈ insertAll acc xs ↔ x ∈ acc ∨ x ∈ xs := by
  induction xs with
  | nil => intro acc; simp [insertAll]
  | cons z zs ih =>
    intro acc
    show x ∈ insertAll (insertSorted z acc) zs ↔ _
    rw [ih, insertSorted_mem]
    simp only [List.mem_cons]
    tauto

lemma insertAll_sorted {xs : List Int} : ∀ {acc : List Int}, acc.Sorted (· < ·) →
    (insertAll acc xs).Sorted (· < ·) := by
  induction xs with
  | nil => intro acc h; exact h
  | cons z zs ih => intro acc h; exact ih (insertSorted_sorted h)

lemma intRange_mem {s e x : Int} : x ∈ intRange s e ↔ s ≤ x ∧ x ≤ e := by
  unfold intRange
  constructor
  · intro hx
    obtain ⟨i, hi, hxe⟩ := List.mem_map.1 hx
    rw [List.mem_range] at hi
    omega
  · intro hx
    apply List.mem_map.2
    refine ⟨(x - s).toNat, ?_, ?_⟩
    · rw [List.mem_range]
      omega
    · omega

/-! ### Properties of the string primitives -/

lemma pySplit_ne_nil (sep : Char) (l : List Char) : pySplit sep l ≠ [] := by
  cases l with
  | nil => simp [pySplit]
  | cons c cs =>
    by_cases h : c = sep
    · simp [pySplit, h]
    · rcases hr : pySplit sep cs with _ | ⟨t, ts⟩ <;> simp [pySplit, h, hr]

lemma pySplit_length (sep : Char) (l : List Char) :
    (pySplit sep l).length = l.count sep + 1 := by
  induction l with
  | nil => simp [pySplit]
  | cons c cs ih =>
    by_cases h : c = sep
    · subst h
      simp [pySplit, ih, List.count_cons_self]
    · rcases hr : pySplit sep cs with _ | ⟨t, ts⟩
      · exact absurd hr (pySplit_ne_nil sep cs)
      · rw [hr] at ih
        simp only [List.length_cons] at ih
        have hcnt : (c :: cs).count sep = cs.count sep := by
          rw [List.count_cons]
          simp [h]
        simp only [pySplit, if_neg h, hr, List.length_cons, hcnt]
        omega

lemma pyStripL_count_le (c : Char) (l : List Char) :
    (pyStripL l).count c ≤ l.count c := by
  unfold pyStripL
  rw [List.count_reverse]
  calc ((l.dropWhile pyIsSpace).reverse.dropWhile pyIsSpace).count c
      ≤ (l.dropWhile pyIsSpace).reverse.count c :=
        (List.dropWhile_sublist _).count_le c
    _ = (l.dropWhile pyIsSpace).count c := List.count_reverse c _
    _ ≤ l.count c := (List.dropWhile_sublist _).count_le c

/-! ### Properties of the token loop -/

lemma parseSpan_eq {t s e : Int} {acc : List Int} {a b : List Char}
    (hA : pyInt? a = some s) (hB : pyInt? b = some e) :
    parseSpan t acc [a, b] =
      if s > e ∨ s < 1 ∨ e > t then some acc
      else some (insertAll acc (intRange s e)) := by
  unfold parseSpan
  simp only [hA, hB]

lemma parseSpan_mem {t x : Int} {acc acc' : List Int} {parts : List (List Char)}
    (h : parseSpan t acc parts = some acc') (hx : x ∈ acc') :
    x ∈ acc ∨ (1 ≤ x ∧ x ≤ t) := by
  rcases parts with _ | ⟨a, _ | ⟨b, _ | ⟨c, rest⟩⟩⟩
  · exact Option.noConfusion h
  · exact Option.noConfusion h
  · rcases hA : pyInt? a with _ | s <;> rcases hB : pyInt? b with _ | e <;>
      simp only [parseSpan, hA, hB, Option.some.injEq] at h
    · subst h; exact Or.inl hx
    · subst h; exact Or.inl hx
    · subst h; exact Or.inl hx
    · split_ifs at h with hc
      · rw [Option.some.injEq] at h
        subst h
        exact Or.inl hx
      · rw [Option.some.injEq] at h
        subst h
        push_neg at hc
        rcases insertAll_mem.1 hx with hx' | hx'
        · exact Or.inl hx'
        · rcases intRange_mem.1 hx' with ⟨h1, h2⟩
          right
          omega
  · exact Option.noConfusion h

lemma parseSpan_sorted {t : Int} {acc acc' : List Int} {parts : List (List Char)}
    (h : parseSpan t acc parts = some acc') (hs : acc.Sorted (· < ·)) :
    acc'.Sorted (· < ·) := by
  rcases parts with _ | ⟨a, _ | ⟨b, _ | ⟨c, rest⟩⟩⟩
  · exact Option.noConfusion h
  · exact Option.noConfusion h
  · rcases hA : pyInt? a with _ | s <;> rcases hB : pyInt? b with _ | e <;>
      simp only [parseSpan, hA, hB, Option.some.injEq] at h
    · subst h; exact hs
    · subst h; exact hs
    · subst h; exact hs
    · split_ifs at h with hc
      · rw [Option.some.injEq] at h
        subst h
        exact hs
      · rw [Option.some.injEq] at h
        subst h
        exact insertAll_sorted hs
  · exact Option.noConfusion h

lemma parseSingle_mem {t x : Int} {acc : List Int} {p : List Char}
    (hx : x ∈ parseSingle t acc p) :
    x ∈ acc ∨ (1 ≤ x ∧ x ≤ t) := by
  unfold parseSingle at hx
  rcases hP : pyInt? p with _ | pg <;> simp only [hP] at hx
  · exact Or.inl hx
  · split_ifs at hx with hc
    · rcases insertSorted_mem.1 hx with rfl | hx'
      · exact Or.inr hc
      · exact Or.inl hx'
    · exact Or.inl hx

lemma parseSingle_sorted {t : Int} {acc : List Int} {p : List Char}
    (hs : acc.Sorted (· < ·)) :
    (parseSingle t acc p).Sorted (· < ·) := by
  unfold parseSingle
  rcases hP : pyInt? p with _ | pg <;> simp only [hP]
  · exact hs
  · split_ifs
    · exact insertSorted_sorted hs
    · exact hs

lemma parsePart_mem {t x : Int} {acc acc' : List Int} {tok : List Char}
    (h : parsePart t acc tok = some acc') (hx : x ∈ acc') :
    x ∈ acc ∨ (1 ≤ x ∧ x ≤ t) := by
  unfold parsePart at h
  split_ifs at h with h1 h2
  · rw [Option.some.injEq] at h; subst h; exact Or.inl hx
  · exact parseSpan_mem h hx
  · rw [Option.some.injEq] at h; subst h; exact parseSingle_mem hx

lemma parsePart_sorted {t : Int} {acc acc' : List Int} {tok : List Char}
    (h : parsePart t acc tok = some acc') (hs : acc.Sorted (· < ·)) :
    acc'.Sorted (· < ·) := by
  unfold parsePart at h
  split_ifs at h with h1 h2
  · rw [Option.some.injEq] at h; subst h; exact hs
  · exact parseSpan_sorted h hs
  · rw [Option.some.injEq] at h; subst h; exact parseSingle_sorted hs

lemma parsePart_isSome {t : Int} {acc : List Int} {tok : List Char}
    (hc : (pyStripL tok).count '-' ≤ 1) :
    (parsePart t acc tok).isSome := by
  unfold parsePart
  split_ifs with h1 h2
  · rfl
  · have hpos : 0 < (pyStripL tok).count '-' := List.count_pos_iff.2 h2
    have hlen : (pySplit '-' (pyStripL tok)).length = 2 := by
      rw [pySplit_length]
      omega
    obtain ⟨a, b, hab⟩ := List.length_eq_two.1 hlen
    rw [hab]
    rcases hA : pyInt? a with _ | s <;> rcases hB : pyInt? b with _ | e <;>
      simp only [parseSpan, hA, hB, Option.isSome_some]
    split_ifs <;> rfl
  · rfl

/-! ### Properties of the whole parser -/

lemma parseLoop_mem {t : Int} : ∀ (toks : List (List Char)) (acc res : List Int),
    toks.foldlM (parsePart t) acc = some res →
    ∀ x ∈ res, x ∈ acc ∨ (1 ≤ x ∧ x ≤ t) := by
  intro toks
  induction toks with
  | nil =>
    intro acc res h x hx
    have h' : some acc = some res := h
    rw [Option.some.injEq] at h'
    subst h'
    exact Or.inl hx
  | cons tok toks ih =>
    intro acc res h x hx
    rcases hp : parsePart t acc tok with _ | a
    · rw [show List.foldlM (parsePart t) acc (tok :: toks)
            = (parsePart t acc tok).bind (fun a => List.foldlM (parsePart t) a toks)
          from rfl, hp] at h
      exact Option.noConfusion h
    · rw [show List.foldlM (parsePart t) acc (tok :: toks)
            = (parsePart t acc tok).bind (fun a => List.foldlM (parsePart t) a toks)
          from rfl, hp] at h
      rcases ih a res h x hx with h' | h'
      · exact parsePart_mem hp h'
      · exact Or.inr h'

lemma parseLoop_sorted {t : Int} : ∀ (toks : List (List Char)) (acc res : List Int),
    toks.foldlM (parsePart t) acc = some res →
    acc.Sorted (· < ·) → res.Sorted (· < ·) := by
  intro toks
  induction toks with
  | nil =>
    intro acc res h hs
    have h' : some acc = some res := h
    rw [Option.some.injEq] at h'
    subst h'
    exact hs
  | cons tok toks ih =>
    intro acc res h hs
    rcases hp : parsePart t acc tok with _ | a
    · rw [show List.foldlM (parsePart t) acc (tok :: toks)
            = (parsePart t acc tok).bind (fun a => List.foldlM (parsePart t) a toks)
          from rfl, hp] at h
      exact Option.noConfusion h
    · rw [show List.foldlM (parsePart t) acc (tok :: toks)
            = (parsePart t acc tok).bind (fun a => List.foldlM (parsePart t) a toks)
          from rfl, hp] at h
      exact ih a res h (parsePart_sorted hp hs)

lemma parseLoop_isSome {t : Int} : ∀ (toks : List (List Char)) (acc : List Int),
    (∀ tok ∈ toks, (pyStripL tok).count '-' ≤ 1) →
    (toks.foldlM (parsePart t) acc).isSome := by
  intro toks
  induction toks with
  | nil => intro acc _; rfl
  | cons tok toks ih =>
    intro acc hc
    have h1 : (parsePart t acc tok).isSome :=
      parsePart_isSome (hc tok (List.mem_cons_self tok toks))
    rcases hp : parsePart t acc tok with _ | a
    · rw [hp] at h1
      exact absurd h1 (by simp)
    · rw [show List.foldlM (parsePart t) acc (tok :: toks)
            = (parsePart t acc tok).bind (fun a => List.foldlM (parsePart t) a toks)
          from rfl, hp]
      exact ih a (fun x hx => hc x (List.mem_cons_of_mem tok hx))

/-! ### Claims about the range parser -/

/-- C1 (counterexample): the spec's worked example is wrong about the
code: `parse_page_range("1,3-5,7", 10)` does not return
`[1,3,4,5,6,7]` — the span `3-5` contributes only `{3,4,5}`, never 6. -/
theorem claim_C1_counterexample :
    parse_page_range "1,3-5,7" 10 ≠ some [1, 3, 4, 5, 6, 7] := by decide

/-- C1 (amended): `parse_page_range("1,3-5,7", 10)` returns exactly
`[1, 3, 4, 5, 7]`. -/
theorem claim_C1_amended :
    parse_page_range "1,3-5,7" 10 = some [1, 3, 4, 5, 7] := by decide

/-- C2 (counterexample): `parse_page_range` does not return normally on
every input: on `"1-2-3"` the tuple unpacking `start, end =
part.split('-')` (line 123, outside the `try`) raises an uncaught
`ValueError`, modelled here as `none`. -/
theorem claim_C2_counterexample : parse_page_range "1-2-3" 10 = none := by decide

/-- C2 (amended): for every input whose comma-separated tokens each
contain at most one `'-'`, `parse_page_range` returns normally; within
that fragment non-numeric tokens are silently dropped
(`parse_range("abc,2", 10) == [2]`), out-of-bounds single pages are
silently dropped, and a malformed or fully-empty input yields the empty
result rather than an exception. -/
theorem claim_C2_amended :
    (∀ (s : String) (t : Int),
        (∀ tok ∈ pySplit ',' s.data, tok.count '-' ≤ 1) →
        (parse_page_range s t).isSome) ∧
    parse_page_range "abc,2" 10 = some [2] ∧
    parse_page_range "" 10 = some [] ∧
    parse_page_range "0,11" 10 = some [] := by
  refine ⟨?_, by decide, by decide, by decide⟩
  intro s t hc
  exact parseLoop_isSome _ _ (fun tok htok =>
    le_trans (pyStripL_count_le '-' tok) (hc tok htok))

/-- C2 (witness): a concrete mixed input with valid, spanned and
non-numeric tokens parses without an exception. -/
theorem claim_C2_witness : (parse_page_range "7, 9-12 ,abc" 20).isSome :=
  claim_C2_amended.1 "7, 9-12 ,abc" 20 (by decide)

/-- C4: a span token `A-B` contributes exactly `{A, ..., B}` when
`A ≤ B`, `1 ≤ A` and `B ≤ total_pages`, and contributes nothing at all
otherwise (neither clamped nor swapped); in particular
`parse_page_range("5-2", 10) == []`. -/
theorem claim_C4_span :
    (∀ (t s e : Int) (acc : List Int) (tok a b : List Char),
        pySplit '-' (pyStripL tok) = [a, b] →
        pyInt? a = some s → pyInt? b = some e →
        ∃ acc', parsePart t acc tok = some acc' ∧
          ∀ x : Int, x ∈ acc' ↔ x ∈ acc ∨ (s ≤ e ∧ 1 ≤ s ∧ e ≤ t ∧ s ≤ x ∧ x ≤ e)) ∧
    parse_page_range "5-2" 10 = some [] := by
  refine ⟨?_, by decide⟩
  intro t s e acc tok a b hab hA hB
  have hne : pyStripL tok ≠ [] := by
    intro h0
    rw [h0] at hab
    simp [pySplit] at hab
  have hcount : (pyStripL tok).count '-' = 1 := by
    have hlen := pySplit_length '-' (pyStripL tok)
    rw [hab] at hlen
    simp only [List.length_cons, List.length_nil] at hlen
    omega
  have hmem : '-' ∈ pyStripL tok := List.count_pos_iff.1 (by omega)
  have hred : parsePart t acc tok =
      if s > e ∨ s < 1 ∨ e > t then some acc
      else some (insertAll acc (intRange s e)) := by
    unfold parsePart
    rw [if_neg hne, if_pos hmem, hab, parseSpan_eq hA hB]
  by_cases hcond : s > e ∨ s < 1 ∨ e > t
  · refine ⟨acc, by rw [hred, if_pos hcond], ?_⟩
    intro x
    constructor
    · exact Or.inl
    · rintro (hx | hx)
      · exact hx
      · omega
  · refine ⟨insertAll acc (intRange s e), by rw [hred, if_neg hcond], ?_⟩
    push_neg at hcond
    intro x
    rw [insertAll_mem, intRange_mem]
    constructor
    · rintro (hx | ⟨h1, h2⟩)
      · exact Or.inl hx
      · right
        refine ⟨hcond.1, hcond.2.1, hcond.2.2, h1, h2⟩
    · rintro (hx | ⟨_, _, _, h1, h2⟩)
      · exact Or.inl hx
      · exact Or.inr ⟨h1, h2⟩

/-- C4 (witness): the in-bounds span token `3-5` against 10 pages
contributes exactly `{3, 4, 5}`. -/
theorem claim_C4_witness :
    ∃ acc', parsePart 10 [] "3-5".data = some acc' ∧
      ∀ x : Int, x ∈ acc' ↔ x ∈ ([] : List Int) ∨
        ((3:Int) ≤ 5 ∧ (1:Int) ≤ 3 ∧ (5:Int) ≤ 10 ∧ 3 ≤ x ∧ x ≤ 5) :=
  claim_C4_span.1 10 3 5 [] "3-5".data ['3'] ['5'] (by decide) (by decide) (by decide)

/-- C5: whenever `parse_page_range` returns a list, that list is
strictly ascending, duplicate-free, and all its elements lie in
`[1, total_pages]`. -/
theorem claim_C5_parse_output (s : String) (t : Int) (l : List Int)
    (h : parse_page_range s t = some l) :
    l.Sorted (· < ·) ∧ l.Nodup ∧ ∀ x ∈ l, 1 ≤ x ∧ x ≤ t := by
  have hs : l.Sorted (· < ·) :=
    parseLoop_sorted (pySplit ',' s.data) [] l h List.sorted_nil
  refine ⟨hs, hs.nodup, ?_⟩
  intro x hx
  rcases parseLoop_mem (pySplit ',' s.data) [] l h x hx with h' | h'
  · exact absurd h' (List.not_mem_nil x)
  · exact h'

/-- C5 (witness): the parse of `"1,3-5,7"` against 10 pages is strictly
ascending, duplicate-free and in bounds. -/
theorem claim_C5_witness :
    ([(1:Int), 3, 4, 5, 7].Sorted (· < ·)) ∧ [(1:Int), 3, 4, 5, 7].Nodup ∧
      ∀ x ∈ [(1:Int), 3, 4, 5, 7], 1 ≤ x ∧ x ≤ 10 :=
  claim_C5_parse_output "1,3-5,7" 10 [1, 3, 4, 5, 7] (by decide)

/-! ### Claims about processing order (export pipeline) -/

lemma foldl_push_eq : ∀ (l acc : List Nat), l.foldl (fun a r => a ++ [r]) acc = acc ++ l := by
  intro l
  induction l with
  | nil => intro acc; simp
  | cons r rs ih =>
    intro acc
    rw [List.foldl_cons, ih]
    simp

/-- C3 (counterexample): the claim that pages are always processed in
ascending page-number order regardless of visual selection order is
false: when the widget reports the selection as rows `[2, 0]` (pages
selected visually in that order), the NewPdf export inserts the pages in
exactly that order, not in the ascending order `[0, 2]`. -/
theorem claim_C3_counterexample :
    extract_as_pdf (some 3) [2, 0] "out.pdf" = .savedPdf "out.pdf" [2, 0] ∧
    [2, 0] ≠ [0, 2] := by
  constructor
  · decide
  · decide

/-- C3 (amended): the export pipeline applies no reordering: a NewPdf
export copies the pages in exactly the order the widget reports the
selected rows, so the output page order is ascending precisely when the
reported selection order is ascending (as it is after a range-based
selection, which marks pages in ascending parse order). -/
theorem claim_C3_amended (n : Nat) (rows : List Nat) (path : String) (hne : rows ≠ []) :
    extract_as_pdf (some n) rows path = .savedPdf path rows ∧
    (List.Sorted (· < ·) rows →
      ∃ order, extract_as_pdf (some n) rows path = .savedPdf path order ∧
        List.Sorted (· < ·) order) := by
  rcases rows with _ | ⟨r, rs⟩
  · exact absurd rfl hne
  · have h1 : extract_as_pdf (some n) (r :: rs) path = .savedPdf path (r :: rs) := by
      have h0 : extract_as_pdf (some n) (r :: rs) path
          = .savedPdf path ((r :: rs).foldl (fun a x => a ++ [x]) []) := rfl
      rw [h0, foldl_push_eq]
      rfl
    exact ⟨h1, fun hs => ⟨r :: rs, h1, hs⟩⟩

/-- C3 (witness): an ascending reported selection yields an ascending
NewPdf page order. -/
theorem claim_C3_witness :
    (extract_as_pdf (some 3) [0, 2] "sel.pdf" = .savedPdf "sel.pdf" [0, 2]) ∧
    (List.Sorted (· < ·) [0, 2] →
      ∃ order, extract_as_pdf (some 3) [0, 2] "sel.pdf" = .savedPdf "sel.pdf" order ∧
        List.Sorted (· < ·) order) :=
  claim_C3_amended 3 [0, 2] "sel.pdf" (by decide)

/-! ### Claims about the selection model -/

lemma selOffsets_mem {count : Nat} {pages : List Int} {o : Int} :
    o ∈ pages.filterMap
        (fun p => if 0 ≤ p - 1 ∧ p - 1 < (count : Int) then some (p - 1) else none)
      ↔ (o + 1) ∈ pages ∧ 0 ≤ o ∧ o < (count : Int) := by
  rw [List.mem_filterMap]
  constructor
  · rintro ⟨p, hp, hf⟩
    split_ifs at hf with hc
    rw [Option.some.injEq] at hf
    have hpo : p = o + 1 := by omega
    subst hpo
    exact ⟨hp, by omega, by omega⟩
  · rintro ⟨hmem, h0, hc⟩
    refine ⟨o + 1, hmem, ?_⟩
    rw [if_pos (by constructor <;> omega)]
    rw [Option.some.injEq]
    omega

lemma selOffsets_sorted {count : Nat} : ∀ {pages : List Int}, pages.Sorted (· < ·) →
    (pages.filterMap
      (fun p => if 0 ≤ p - 1 ∧ p - 1 < (count : Int) then some (p - 1) else none)).Sorted
      (· < ·) := by
  intro pages
  induction pages with
  | nil => intro _; simp
  | cons p ps ih =>
    intro hs
    rw [List.sorted_cons] at hs
    obtain ⟨hp, hps⟩ := hs
    rw [List.filterMap_cons]
    split
    · exact ih hps
    · rename_i b hb
      split_ifs at hb with hc
      rw [Option.some.injEq] at hb
      subst hb
      refine List.sorted_cons.2 ⟨?_, ih hps⟩
      intro o ho
      rcases selOffsets_mem.1 ho with ⟨hmem, _, _⟩
      have := hp _ hmem
      omega

lemma select_pages_selected {total count : Nat} {text : String} {offsets : List Int}
    (h : select_pages (some total) text count = .selected offsets) :
    ∃ pages, parse_page_range (String.mk (pyStripL text.data)) (total : Int) = some pages ∧
      pages ≠ [] ∧ pages.Sorted (· < ·) ∧
      offsets = pages.filterMap
        (fun p => if 0 ≤ p - 1 ∧ p - 1 < (count : Int) then some (p - 1) else none) := by
  simp only [select_pages] at h
  split_ifs at h with h1
  rcases hp : parse_page_range (String.mk (pyStripL text.data)) (total : Int)
    with _ | pages
  · rw [hp] at h
    exact SelectResult.noConfusion h
  · rcases pages with _ | ⟨p, ps⟩
    · rw [hp] at h
      exact SelectResult.noConfusion h
    · rw [hp] at h
      injection h with h
      exact ⟨p :: ps, rfl, by simp,
        parseLoop_sorted (pySplit ',' (String.mk (pyStripL text.data)).data) [] _ hp
          List.sorted_nil, h.symm⟩

/-- C6: a successful range selection replaces any prior selection with
exactly the in-range pages of the parsed input, stored as 0-based
offsets in ascending order; offsets of pages beyond the widget's item
count are ignored rather than erroring, the result is independent of
the order the pages were written in the input, and selecting pages
`3,1` of a 3-page document yields offsets `[0, 2]`. -/
theorem claim_C6_select :
    (∀ (s : AppState) (text : String) (offsets : List Int),
        select_pages s.pdf_doc text s.thumb_count = .selected offsets →
        (applySelect s text).selection = offsets) ∧
    (∀ (total count : Nat) (text : String) (offsets : List Int),
        select_pages (some total) text count = .selected offsets →
        List.Sorted (· < ·) offsets ∧
        ∀ o : Int, o ∈ offsets ↔
          (∃ pages,
            parse_page_range (String.mk (pyStripL text.data)) (total : Int) = some pages ∧
              (o + 1) ∈ pages) ∧
            0 ≤ o ∧ o < (count : Int)) ∧
    select_pages (some 3) "3,1" 3 = .selected [0, 2] ∧
    select_pages (some 3) "1,3" 3 = .selected [0, 2] := by
  refine ⟨?_, ?_, by decide, by decide⟩
  · intro s text offsets h
    simp only [applySelect, h]
  · intro total count text offsets h
    obtain ⟨pages, hp, hne, hsort, rfl⟩ := select_pages_selected h
    refine ⟨selOffsets_sorted hsort, ?_⟩
    intro o
    rw [selOffsets_mem]
    constructor
    · rintro ⟨hmem, h0, hc⟩
      exact ⟨⟨pages, hp, hmem⟩, h0, hc⟩
    · rintro ⟨⟨pages', hp', hmem⟩, h0, hc⟩
      rw [hp, Option.some.injEq] at hp'
      subst hp'
      exact ⟨hmem, h0, hc⟩

/-- C6 (witness): selecting `"3,1"` in a 3-page document with 3
thumbnails yields exactly the ascending offsets `[0, 2]`. -/
theorem claim_C6_witness :
    List.Sorted (· < ·) [(0:Int), 2] ∧
    (∀ o : Int, o ∈ [(0:Int), 2] ↔
      (∃ pages,
        parse_page_range (String.mk (pyStripL "3,1".data)) ((3:Nat) : Int) = some pages ∧
          (o + 1) ∈ pages) ∧
        0 ≤ o ∧ o < ((3:Nat) : Int)) :=
  claim_C6_select.2.1 3 3 "3,1" [0, 2] (by decide)

/-- C10: when the entered range parses to no valid pages, `select_pages`
reports the error and leaves the existing selection untouched — the
prior selection is only cleared after a non-empty parse result. -/
theorem claim_C10_keep_selection (s : AppState) (total : Nat) (text : String)
    (hdoc : s.pdf_doc = some total)
    (hne : pyStripL text.data ≠ [])
    (hparse : parse_page_range (String.mk (pyStripL text.data)) (total : Int) = some []) :
    select_pages s.pdf_doc text s.thumb_count = .noValidPages ∧
    applySelect s text = s := by
  have hsel : select_pages s.pdf_doc text s.thumb_count = .noValidPages := by
    rw [hdoc]
    simp only [select_pages, if_neg hne, hparse]
  refine ⟨hsel, ?_⟩
  simp only [applySelect, hsel]

/-- C10 (witness): entering `"0"` against a 10-page document parses to
no valid pages; the previously selected offset 4 stays selected. -/
theorem claim_C10_witness :
    select_pages (AppState.mk (some 10) 10 [4]).pdf_doc "0"
        (AppState.mk (some 10) 10 [4]).thumb_count = .noValidPages ∧
    applySelect (AppState.mk (some 10) 10 [4]) "0" = AppState.mk (some 10) 10 [4] :=
  claim_C10_keep_selection (AppState.mk (some 10) 10 [4]) 10 "0" rfl (by decide) (by decide)

/-! ### Claims about document replacement and the selection invariant -/

lemma reachable_wf {s : AppState} (h : Reachable s) :
    (∀ o ∈ s.selection, 0 ≤ o ∧ o < (s.thumb_count : Int)) ∧
    (∀ n : Nat, s.pdf_doc = some n → s.thumb_count ≤ n) := by
  induction h with
  | init => exact ⟨by simp, by simp⟩
  | @step s t e hr hstep ih =>
    cases hstep with
    | loadOk n k hk =>
      refine ⟨by simp, ?_⟩
      intro n' hn'
      have hnn : some n = some n' := hn'
      rw [Option.some.injEq] at hnn
      show k ≤ n'
      omega
    | loadFail =>
      refine ⟨ih.1, ?_⟩
      intro n hn
      exact Option.noConfusion hn
    | doSelect text =>
      rcases hsel : select_pages s.pdf_doc text s.thumb_count
        with _ | _ | _ | _ | offsets
      · simp only [applySelect, hsel]
        exact ih
      · simp only [applySelect, hsel]
        exact ih
      · simp only [applySelect, hsel]
        exact ih
      · simp only [applySelect, hsel]
        exact ih
      · simp only [applySelect, hsel]
        constructor
        · intro o ho
          rcases hd : s.pdf_doc with _ | total
          · rw [hd] at hsel
            exact absurd hsel (by simp [select_pages])
          · rw [hd] at hsel
            obtain ⟨pages, hp, hne, hsort, hoff⟩ := select_pages_selected hsel
            subst hoff
            exact ⟨(selOffsets_mem.1 ho).2.1, (selOffsets_mem.1 ho).2.2⟩
        · intro n hn
          exact ih.2 n hn

/-- C7: a successful document load always resets the selection to empty
(no stale offsets survive a reload, even onto a smaller document), and
in every reachable state each selected offset is strictly below the
page count of the currently loaded document. -/
theorem claim_C7_invariant :
    (∀ (s t : AppState) (n k : Nat), Step s (.loadOk n k) t → t.selection = []) ∧
    (∀ s : AppState, Reachable s → ∀ n : Nat, s.pdf_doc = some n →
        ∀ o ∈ s.selection, 0 ≤ o ∧ o < (n : Int)) := by
  constructor
  · intro s t n k h
    cases h
    rfl
  · intro s hs n hn o ho
    obtain ⟨h1, h2⟩ := reachable_wf hs
    rcases h1 o ho with ⟨ha, hb⟩
    have hc := h2 n hn
    refine ⟨ha, ?_⟩
    have hcast : (s.thumb_count : Int) ≤ (n : Int) := by exact_mod_cast hc
    omega

/-- C7 (witness): loading a 2-page document over a state that had a
stale selection leaves an empty selection, and that reached state
satisfies the offset bound. -/
theorem claim_C7_witness :
    ((⟨some 2, 2, []⟩ : AppState).selection = []) ∧
    (∀ o ∈ (⟨some 2, 2, []⟩ : AppState).selection, 0 ≤ o ∧ o < ((2 : Nat) : Int)) :=
  ⟨claim_C7_invariant.1 ⟨some 5, 3, [0]⟩ ⟨some 2, 2, []⟩ 2 2 (Step.loadOk _ 2 2 (by decide)),
   claim_C7_invariant.2 ⟨some 2, 2, []⟩
     (Reachable.step Reachable.init (Step.loadOk _ 2 2 (by decide))) 2 rfl⟩

/-! ### Claims about the merged-image export -/

lemma natMax_or (a b : Nat) : Nat.max a b = a ∨ Nat.max a b = b := by
  have h : Nat.max a b = max a b := rfl
  rw [h]
  omega

lemma natMax_left (a b : Nat) : a ≤ Nat.max a b := by
  have h : Nat.max a b = max a b := rfl
  rw [h]
  omega

lemma natMax_right (a b : Nat) : b ≤ Nat.max a b := by
  have h : Nat.max a b = max a b := rfl
  rw [h]
  omega

lemma foldl_max_mem : ∀ (l : List Nat) (a : Nat),
    l.foldl Nat.max a = a ∨ l.foldl Nat.max a ∈ l := by
  intro l
  induction l with
  | nil => intro a; exact Or.inl rfl
  | cons b bs ih =>
    intro a
    rw [List.foldl_cons]
    rcases ih (Nat.max a b) with h | h
    · rw [h]
      rcases natMax_or a b with hm | hm
      · exact Or.inl hm
      · right
        rw [hm]
        exact List.mem_cons_self b bs
    · right
      exact List.mem_cons_of_mem b h

lemma foldl_max_le_init : ∀ (l : List Nat) (a : Nat), a ≤ l.foldl Nat.max a := by
  intro l
  induction l with
  | nil => intro a; exact le_refl a
  | cons b bs ih =>
    intro a
    rw [List.foldl_cons]
    exact le_trans (natMax_left a b) (ih (Nat.max a b))

lemma foldl_max_ge_mem : ∀ (l : List Nat) (a x : Nat), x ∈ l → x ≤ l.foldl Nat.max a := by
  intro l
  induction l with
  | nil =>
    intro a x hx
    exact absurd hx (List.not_mem_nil x)
  | cons b bs ih =>
    intro a x hx
    rw [List.foldl_cons]
    rcases List.mem_cons.1 hx with rfl | hx'
    · exact le_trans (natMax_right a x) (foldl_max_le_init bs (Nat.max a x))
    · exact ih (Nat.max a b) x hx'

lemma maxWidth_spec {images : List Img} (hne : images ≠ []) :
    (∃ i ∈ images, i.width = maxWidth images) ∧
    ∀ i ∈ images, i.width ≤ maxWidth images := by
  constructor
  · rcases foldl_max_mem (images.map Img.width) 0 with h | h
    · rcases images with _ | ⟨i0, rest⟩
      · exact absurd rfl hne
      · refine ⟨i0, List.mem_cons_self _ _, ?_⟩
        have hle : i0.width ≤ maxWidth (i0 :: rest) :=
          foldl_max_ge_mem _ 0 _ (List.mem_map_of_mem Img.width (List.mem_cons_self _ _))
        have h0 : maxWidth (i0 :: rest) = 0 := h
        omega
    · rw [List.mem_map] at h
      obtain ⟨i, hi, hw⟩ := h
      exact ⟨i, hi, hw⟩
  · intro i hi
    exact foldl_max_ge_mem _ 0 _ (List.mem_map_of_mem Img.width hi)

lemma foldl_add_eq (l : List Nat) : ∀ a, l.foldl (· + ·) a = a + l.sum := by
  induction l with
  | nil => intro a; simp
  | cons b bs ih =>
    intro a
    rw [List.foldl_cons, ih, List.sum_cons]
    omega

lemma totalHeight_eq_sum (images : List Img) :
    totalHeight images = (images.map Img.height).sum := by
  unfold totalHeight
  rw [foldl_add_eq]
  omega

lemma pasteFold_fst : ∀ (images : List Img) (acc : List (Img × Nat)) (y : Nat),
    (images.foldl (fun a img => (a.1 ++ [(img, a.2)], a.2 + img.height)) (acc, y)).1
      = acc ++ images.zip ((List.range images.length).map
          (fun k => y + ((images.take k).map Img.height).sum)) := by
  intro images
  induction images with
  | nil =>
    intro acc y
    simp
  | cons img rest ih =>
    intro acc y
    rw [List.foldl_cons]
    dsimp only
    rw [ih (acc ++ [(img, y)]) (y + img.height)]
    rw [List.append_assoc]
    congr 1
    rw [List.length_cons, List.range_succ_eq_map, List.map_cons, List.map_map]
    simp only [List.take_zero, List.map_nil, List.sum_nil, Nat.add_zero]
    rw [List.zip_cons_cons, List.singleton_append]
    congr 2
    apply List.map_congr_left
    intro k hk
    simp only [Function.comp_apply, List.take_succ_cons, List.map_cons, List.sum_cons]
    omega

lemma pasteFold_eq (images : List Img) :
    (pasteFold images).1 = images.zip ((List.range images.length).map
      (fun k => ((images.take k).map Img.height).sum)) := by
  unfold pasteFold
  rw [pasteFold_fst images [] 0, List.nil_append]
  congr 1
  apply List.map_congr_left
  intro k hk
  omega

/-- C8: a successful merged-image export writes to
`destination/merged_pages.png` a canvas whose width is the maximum width
of the successfully rasterized pages and whose height is the sum of
their heights, with each page pasted at x = 0 and a y-offset equal to
the total height of the pages pasted before it. -/
theorem claim_C8_merged (pages : List (Option Img)) (rows : List Nat) (folder path : String)
    (w h : Nat) (pl : List (Img × Nat))
    (hres : extract_pages (some pages) rows folder = .merged path w h pl) :
    path = folder ++ "/merged_pages.png" ∧
    (∃ i ∈ rasterizeRows pages rows, i.width = w) ∧
    (∀ i ∈ rasterizeRows pages rows, i.width ≤ w) ∧
    h = ((rasterizeRows pages rows).map Img.height).sum ∧
    pl = (rasterizeRows pages rows).zip
      ((List.range (rasterizeRows pages rows).length).map
        (fun k => (((rasterizeRows pages rows).take k).map Img.height).sum)) := by
  rcases rows with _ | ⟨r, rs⟩
  · exact MergedResult.noConfusion hres
  · simp only [extract_pages] at hres
    split_ifs at hres with hemp
    injection hres with e1 e2 e3 e4
    subst e1
    subst e2
    subst e3
    subst e4
    obtain ⟨hex, hub⟩ := maxWidth_spec hemp
    exact ⟨rfl, hex, hub, totalHeight_eq_sum _, pasteFold_eq _⟩

/-- C8 (witness): merging a 20-pixel-high 10-wide page with a
5-pixel-high 30-wide page yields a 30 x 25 canvas with the second page
pasted at y = 20. -/
theorem claim_C8_witness :
    "out/merged_pages.png" = "out" ++ "/merged_pages.png" ∧
    (∃ i ∈ rasterizeRows [some (Img.mk 10 20), some (Img.mk 30 5)] [0, 1], i.width = 30) ∧
    (∀ i ∈ rasterizeRows [some (Img.mk 10 20), some (Img.mk 30 5)] [0, 1], i.width ≤ 30) ∧
    (25 : Nat) = ((rasterizeRows [some (Img.mk 10 20), some (Img.mk 30 5)] [0, 1]).map
      Img.height).sum ∧
    [(Img.mk 10 20, 0), (Img.mk 30 5, 20)]
      = (rasterizeRows [some (Img.mk 10 20), some (Img.mk 30 5)] [0, 1]).zip
          ((List.range (rasterizeRows [some (Img.mk 10 20), some (Img.mk 30 5)]
              [0, 1]).length).map
            (fun k => (((rasterizeRows [some (Img.mk 10 20), some (Img.mk 30 5)]
                [0, 1]).take k).map Img.height).sum)) :=
  claim_C8_merged [some (Img.mk 10 20), some (Img.mk 30 5)] [0, 1] "out"
    "out/merged_pages.png" 30 25 [(Img.mk 10 20, 0), (Img.mk 30 5, 20)] (by decide)

/-! ### Claims about the separate-images export -/

lemma filterMap_fileNames (pages : List (Option Img)) (folder : String) :
    ∀ rows : List Nat,
      rows.filterMap (fun r => (pageAt pages r).map (fun _ => pageFileName folder r))
        = (rows.filter (fun r => (pageAt pages r).isSome)).map (pageFileName folder) := by
  intro rows
  induction rows with
  | nil => rfl
  | cons r rs ih =>
    rw [List.filterMap_cons, List.filter_cons]
    rcases hg : pageAt pages r with _ | img
    · simp [hg, ih]
    · simp [hg, ih]

/-- C9: the separate-images export writes one `page_<N>.png` per
successfully rasterized selected page, with N the 1-based page number;
a page whose rasterization fails is skipped and not counted, a single
successful page suffices for the operation to succeed with the count of
written pages, and the export fails with the nothing-extracted error
exactly when every selected page fails. -/
theorem claim_C9_separate (pages : List (Option Img)) (rows : List Nat) (folder : String) :
    (∀ (files : List String) (count : Nat),
        extract_separate_pages (some pages) rows folder = .saved files count →
        count = (rows.filter (fun r => (pageAt pages r).isSome)).length ∧
        0 < count ∧
        files = (rows.filter (fun r => (pageAt pages r).isSome)).map
          (fun r => folder ++ "/page_" ++ toString (r + 1) ++ ".png")) ∧
    (∀ r ∈ rows, (pageAt pages r).isSome →
        ∃ (files : List String) (count : Nat),
          extract_separate_pages (some pages) rows folder = .saved files count) ∧
    (rows ≠ [] → (∀ r ∈ rows, pageAt pages r = none) →
        extract_separate_pages (some pages) rows folder = .nothingExtracted) := by
  refine ⟨?_, ?_, ?_⟩
  · intro files count h
    rcases rows with _ | ⟨r0, rs⟩
    · exact SeparateResult.noConfusion h
    · simp only [extract_separate_pages] at h
      split_ifs at h with hpos
      injection h with hf hc
      subst hf
      subst hc
      refine ⟨?_, hpos, ?_⟩
      · rw [filterMap_fileNames]
        exact List.length_map _ _
      · rw [filterMap_fileNames]
        rfl
  · intro r hr hsome
    rcases rows with _ | ⟨r0, rs⟩
    · exact absurd hr (List.not_mem_nil r)
    · have hmem : pageFileName folder r ∈ (r0 :: rs).filterMap
          (fun r => (pageAt pages r).map (fun _ => pageFileName folder r)) := by
        rw [List.mem_filterMap]
        refine ⟨r, hr, ?_⟩
        rcases hj : pageAt pages r with _ | img
        · rw [hj] at hsome
          exact absurd hsome (by simp)
        · rfl
      have hpos : 0 < ((r0 :: rs).filterMap
          (fun r => (pageAt pages r).map (fun _ => pageFileName folder r))).length :=
        List.length_pos.2 (List.ne_nil_of_mem hmem)
      refine ⟨(r0 :: rs).filterMap
          (fun r => (pageAt pages r).map (fun _ => pageFileName folder r)),
        ((r0 :: rs).filterMap
          (fun r => (pageAt pages r).map (fun _ => pageFileName folder r))).length, ?_⟩
      simp only [extract_separate_pages]
      rw [if_pos hpos]
  · intro hne hall
    rcases rows with _ | ⟨r0, rs⟩
    · exact absurd rfl hne
    · have hnil : (r0 :: rs).filterMap
          (fun r => (pageAt pages r).map (fun _ => pageFileName folder r)) = [] := by
        rw [List.filterMap_eq_nil_iff]
        intro r hr
        rw [hall r hr]
        rfl
      simp only [extract_separate_pages, hnil]
      rfl

/-- C9 (witness): a 3-page selection in which the middle page fails to
rasterize succeeds with count 2 and writes `page_1.png` and
`page_3.png`. -/
theorem claim_C9_witness :
    (2 : Nat) = ([0, 1, 2].filter
        (fun r => (pageAt [some (Img.mk 1 1), none, some (Img.mk 2 2)] r).isSome)).length ∧
    0 < (2 : Nat) ∧
    ["out/page_1.png", "out/page_3.png"]
      = ([0, 1, 2].filter
          (fun r => (pageAt [some (Img.mk 1 1), none, some (Img.mk 2 2)] r).isSome)).map
          (fun r => "out" ++ "/page_" ++ toString (r + 1) ++ ".png") :=
  (claim_C9_separate [some (Img.mk 1 1), none, some (Img.mk 2 2)] [0, 1, 2] "out").1
    ["out/page_1.png", "out/page_3.png"] 2 (by decide)
